import Mathlib

/-!
Verification of the traceability toolchain of this repository.

The development shallowly embeds the core of the traceability pipeline:

* `Scripts/generators/spec_parser.py` — identifier extraction
  (`REF_PATTERN.findall`), `build_item`, and the de-duplication loop of
  `main` (keep first occurrence, record duplicate counts);
* `Scripts/generators/build_trace_json.py` — the forward/backward
  reference maps, the per-prefix completeness metrics, the symmetric
  `req_link_stat` pair metrics;
* `Scripts/generate-traceability-matrix.py` — the placeholder stripping
  (`re.sub`), the `ADR-\d{3}` scan and the empty-scaffold report branch;
* `Scripts/enforce-traceability.py` — `_detect_circular_dependencies`.

Python regular-expression matching (`re.findall` / `re.sub`) is embedded
as an explicit leftmost-greedy backtracking matcher over `List Char`;
character classes are modelled over ASCII, which covers every identifier
the governed patterns can produce.  Python `dict`s are modelled as
association lists with first-insertion key order and last-wins values;
Python `set`s used only for membership/emptiness tests are modelled as
lists queried up to membership.  The sha1 `hash` field of an item is
opaque data never inspected by any of the verified functions and is
omitted from the `Item` structure.
-/

namespace LibMediaTrace

/-- ASCII model of the regex character class `[A-Z]`. -/
def isUpperCh (c : Char) : Bool := 'A' ≤ c && c ≤ 'Z'

/-- ASCII model of the regex character class `[a-z]`. -/
def isLowerCh (c : Char) : Bool := 'a' ≤ c && c ≤ 'z'

/-- ASCII model of the regex character class `\d` / `[0-9]`. -/
def isDigitCh (c : Char) : Bool := '0' ≤ c && c ≤ '9'

/-- The character class `[A-Z0-9]` used by `REF_PATTERN`. -/
def isUpperDigitCh (c : Char) : Bool := isUpperCh c || isDigitCh c

/-- The character class `[A-Z0-9\-]` of the trailing star of `REF_PATTERN`. -/
def isIdTailCh (c : Char) : Bool := isUpperDigitCh c || c == '-'

/-- ASCII model of the regex word class `\w` (`[A-Za-z0-9_]`), used by the
word-boundary assertion `\b`. -/
def isWordCh (c : Char) : Bool :=
  isUpperCh c || isLowerCh c || isDigitCh c || c == '_'

/-- Whether a word boundary (`\b`) lies between an optional previous
character and an optional next character. -/
def isBoundary (prev next : Option Char) : Bool :=
  let w : Option Char → Bool := fun | none => false | some c => isWordCh c
  w prev != w next

/-- Abstract syntax of the small regular-expression fragment needed by the
governed identifier patterns: literal characters, character classes,
sequencing, alternation, a greedy optional group, a greedy star over a
character class, and the word-boundary assertion `\b`. -/
inductive RE where
  | eps : RE
  | chr (c : Char) : RE
  | cls (p : Char → Bool) : RE
  | seq (a b : RE) : RE
  | alt (a b : RE) : RE
  | opt (a : RE) : RE
  | starCls (p : Char → Bool) : RE
  | wb : RE

/-- Splits of a list realizing a greedy char-class star: the longest
admissible consumed segment first, down to the empty segment. -/
def starSplits (p : Char → Bool) : List Char → List (List Char × List Char)
  | [] => [([], [])]
  | c :: cs =>
      if p c then
        (starSplits p cs).map (fun t => (c :: t.1, t.2)) ++ [([], c :: cs)]
      else
        [([], c :: cs)]

/-- Backtracking matcher.  `reMatches re prev s` returns every way `re` can
consume a prefix of `s` as `(consumed, newPrev, rest)` triples, in the
preference order of a leftmost-greedy (Python `re`) engine; `prev` is the
character immediately before `s` in the scanned text (for `\b`). -/
def reMatches : RE → Option Char → List Char → List (List Char × Option Char × List Char)
  | .eps, prev, s => [([], prev, s)]
  | .chr c, _, s =>
      match s with
      | [] => []
      | a :: as => if a == c then [([a], some a, as)] else []
  | .cls p, _, s =>
      match s with
      | [] => []
      | a :: as => if p a then [([a], some a, as)] else []
  | .seq a b, prev, s =>
      (reMatches a prev s).flatMap fun t =>
        (reMatches b t.2.1 t.2.2).map fun u => (t.1 ++ u.1, u.2.1, u.2.2)
  | .alt a b, prev, s => reMatches a prev s ++ reMatches b prev s
  | .opt a, prev, s => reMatches a prev s ++ [([], prev, s)]
  | .starCls p, prev, s =>
      (starSplits p s).map fun t =>
        (t.1, match t.1.getLast? with | some c => some c | none => prev, t.2)
  | .wb, prev, s =>
      if isBoundary prev s.head? then [([], prev, s)] else []

/-- One step of `re.findall` scanning: try to match at the current
position; on success emit the match and resume after it, otherwise
advance one character.  `fuel` bounds the number of scan steps; every
pattern we use consumes at least one character per match, so
`s.length + 1` steps always suffice. -/
def findallAux (re : RE) : Nat → Option Char → List Char → List (List Char)
  | 0, _, _ => []
  | Nat.succ fuel, prev, s =>
      match reMatches re prev s with
      | t :: _ =>
          if t.1.isEmpty then
            match s with
            | [] => []
            | c :: cs => findallAux re fuel (some c) cs
          else
            t.1 :: findallAux re fuel t.2.1 t.2.2
      | [] =>
          match s with
          | [] => []
          | c :: cs => findallAux re fuel (some c) cs

/-- Python `re.findall` over a string (leftmost, non-overlapping). -/
def findallRE (re : RE) (s : String) : List String :=
  (findallAux re (s.data.length + 1) none s.data).map fun cs => String.mk cs

/-- Literal string as a regex sequence. -/
def litRE (s : String) : RE :=
  s.data.foldr (fun c acc => RE.seq (RE.chr c) acc) RE.eps

/-- The alternation `(?:StR|REQ|ARC|ADR|QA|TEST)` of `REF_PATTERN`
(`spec_parser.py` line 35), alternatives in source order. -/
def idHeadRE : RE :=
  RE.alt (litRE "StR") (RE.alt (litRE "REQ") (RE.alt (litRE "ARC")
    (RE.alt (litRE "ADR") (RE.alt (litRE "QA") (litRE "TEST")))))

/-- The optional category infix group `(?:[A-Z]{4}-)?` of `REF_PATTERN`. -/
def catCodeRE : RE :=
  RE.seq (RE.cls isUpperCh) (RE.seq (RE.cls isUpperCh)
    (RE.seq (RE.cls isUpperCh) (RE.seq (RE.cls isUpperCh) (RE.chr '-'))))

/-- Regex `REF_PATTERN` of `spec_parser.py` (line 35):
`\b(?:StR|REQ|ARC|ADR|QA|TEST)-(?:[A-Z]{4}-)?[A-Z0-9][A-Z0-9\-]*\b`. -/
def refPatternRE : RE :=
  RE.seq RE.wb (RE.seq idHeadRE (RE.seq (RE.chr '-')
    (RE.seq (RE.opt catCodeRE)
      (RE.seq (RE.cls isUpperDigitCh) (RE.seq (RE.starCls isIdTailCh) RE.wb)))))

/-- `REF_PATTERN.findall` over a document's full text. -/
def findallRefs (text : String) : List String := findallRE refPatternRE text

/-- The `'adr'` pattern `ADR-\d{3}` of `generate-traceability-matrix.py`
(line 64). -/
def adrPatternRE : RE :=
  RE.seq (RE.chr 'A') (RE.seq (RE.chr 'D') (RE.seq (RE.chr 'R')
    (RE.seq (RE.chr '-') (RE.seq (RE.cls isDigitCh)
      (RE.seq (RE.cls isDigitCh) (RE.cls isDigitCh))))))

/-- Python `re.sub(pat, '', s)` for a small alternation of literal
patterns: scan left to right; at each position delete the first
alternative that matches there (non-overlapping), else keep the
character.  Alternatives are tried in their source order. -/
def subDelete (pats : List (List Char)) (s : List Char) : List Char :=
  match s with
  | [] => []
  | c :: cs =>
      match pats.find? (fun p => !p.isEmpty && p.isPrefixOf (c :: cs)) with
      | some p => subDelete pats (List.drop (p.length - 1) cs)
      | none => c :: subDelete pats cs
termination_by s.length
decreasing_by
  · simp only [List.length_drop, List.length_cons]; omega
  · simp only [List.length_cons]; omega

/-- The placeholder stripping of `generate-traceability-matrix.py`
(lines 108-109): `text = re.sub(r'ADR-XXX', '', text)` followed by
`text = re.sub(r'REQ-(F|NF)-000', '', text)`. -/
def stripPlaceholderTokens (text : String) : String :=
  String.mk (subDelete ["REQ-F-000".data, "REQ-NF-000".data]
    (subDelete ["ADR-XXX".data] text.data))

/-- The `'adr'` identifiers collected by the matrix generator's scan loop
(lines 102-113): placeholder tokens are stripped from the text first,
then `PATTERNS['adr'].findall` runs on the stripped text. -/
def matrixAdrScan (text : String) : List String :=
  findallRE adrPatternRE (stripPlaceholderTokens text)

/-- Python `str.startswith` (by characters). -/
def pyStartsWith (s pre : String) : Bool := pre.data.isPrefixOf s.data

/-- Python string truthiness: a string is truthy iff non-empty. -/
def pyTruthyStr (s : String) : Bool := !(s == "")

/-- Contents of a Python `set` built from a list: the distinct elements,
here listed in first-occurrence order.  `seen` accumulates the elements
already emitted. -/
def dedupAux : List String → List String → List String
  | [], _ => []
  | x :: xs, seen => if x ∈ seen then dedupAux xs seen else x :: dedupAux xs (x :: seen)

/-- The distinct elements of a list in first-occurrence order. -/
def pySetList (xs : List String) : List String := dedupAux xs []

/-- Lexicographic (code-point) comparison of character lists, the order
Python `sorted` uses on strings. -/
def lexLeCh : List Char → List Char → Bool
  | [], _ => true
  | _ :: _, [] => false
  | a :: as, b :: bs => if a < b then true else if b < a then false else lexLeCh as bs

/-- Python string comparison `a <= b`. -/
def strLe (a b : String) : Bool := lexLeCh a.data b.data

/-- Insertion step of an insertion sort by `strLe`. -/
def insertSorted (x : String) : List String → List String
  | [] => [x]
  | y :: ys => if strLe x y then x :: y :: ys else y :: insertSorted x ys

/-- Python `sorted` on a list of strings (insertion sort by `strLe`). -/
def pySorted (xs : List String) : List String := xs.foldr insertSorted []

/-- One entry of `build/spec-index.json`, as produced by
`spec_parser.build_item`.  The sha1 `hash` field is opaque data never
read by the verified functions and is omitted. -/
structure Item where
  id : String
  title : String
  path : String
  references : List String
deriving DecidableEq, Repr

/-- Function `build_item` of `spec_parser.py` (lines 108-117):
`refs = sorted({r for r in REF_PATTERN.findall(full_text) if r != id_})`. -/
def buildItem (id_ title path fullText : String) : Item :=
  { id := id_, title := title, path := path,
    references := pySorted (pySetList
      ((findallRefs fullText).filter (fun r => !(r == id_)))) }

/-- State of the de-duplication loop of `spec_parser.main`
(lines 161-175): `seen` (ids already kept), `dedup` (items kept, in
order), and the `duplicates` dict (id -> occurrence count, in insertion
order). -/
structure DedupState where
  seenIds : List String
  dedupItems : List Item
  dupCounts : List (String × Nat)
deriving DecidableEq, Repr

/-- Python `duplicates[iid] = duplicates.get(iid, 1) + 1` on the ordered
dict `duplicates`: increment in place, or append with value `2`. -/
def dupUpdate : List (String × Nat) → String → List (String × Nat)
  | [], k => [(k, 2)]
  | p :: ps, k => if p.1 = k then (p.1, p.2 + 1) :: ps else p :: dupUpdate ps k

/-- Loop body of the de-duplication loop of `spec_parser.main`. -/
def dedupStep (st : DedupState) (item : Item) : DedupState :=
  if item.id ∈ st.seenIds then
    { st with dupCounts := dupUpdate st.dupCounts item.id }
  else
    { seenIds := st.seenIds ++ [item.id],
      dedupItems := st.dedupItems ++ [item],
      dupCounts := st.dupCounts }

/-- The whole de-duplication loop of `spec_parser.main` (lines 161-171). -/
def dedupPass (allItems : List Item) : DedupState :=
  allItems.foldl dedupStep ⟨[], [], []⟩

/-- The `duplicateIds` field written to `spec-index.json` (line 177):
`list(duplicates.keys())`. -/
def duplicateIds (allItems : List Item) : List String :=
  (dedupPass allItems).dupCounts.map Prod.fst

/-- The stderr diagnostic lines printed for duplicates (lines 173-175):
a header plus one line per duplicate id with its occurrence count. -/
def duplicateReportLines (allItems : List Item) : List String :=
  if (dedupPass allItems).dupCounts.isEmpty then []
  else
    "⚠️ Duplicate ID(s) detected (keeping first occurrence):" ::
      (dedupPass allItems).dupCounts.map
        (fun p => "  - " ++ p.1 ++ " (occurrences: " ++ toString p.2 ++ ")")

/-- The ids of a list of items, in order. -/
def itemIds (items : List Item) : List String := items.map (·.id)

/-- Value stored for key `k` by the Python dict comprehension
`{i['id']: i.get('references', []) for i in items}`: the references of
the last item with that id (later assignments win). -/
def fwdValue (items : List Item) (k : String) : List String :=
  match items.reverse.find? (fun i => i.id == k) with
  | some i => i.references
  | none => []

/-- The `forward` dict of `build_trace_json.main` (line 27), modelled
with Python dict semantics: keys in first-insertion order, every key
mapped to the value of its last assignment. -/
def forwardDict (items : List Item) : List (String × List String) :=
  (pySetList (itemIds items)).map fun k => (k, fwdValue items k)

/-- Dict lookup with default `[]` (`forward.get(rid, [])`). -/
def dictGet (d : List (String × List String)) (k : String) : List String :=
  match d.find? (fun p => p.1 == k) with
  | some p => p.2
  | none => []

/-- Lookup in the `forward` dict, with default `[]`. -/
def forwardGet (items : List Item) (k : String) : List String :=
  dictGet (forwardDict items) k

/-- The `backward` defaultdict of `build_trace_json.main` (lines 28-31),
queried at key `r`: for every entry `(src, refs)` of `forward` in order,
`src` is appended once per occurrence of `r` in `refs`. -/
def backwardList (items : List Item) (r : String) : List String :=
  (forwardDict items).flatMap fun e =>
    (e.2.filter (fun x => x == r)).map (fun _ => e.1)

/-- The key set of the `backward` defaultdict, in first-append order:
keys are created exactly when some forward entry references them. -/
def backwardKeys (items : List Item) : List String :=
  pySetList ((forwardDict items).flatMap fun e => e.2)

/-- One per-prefix completeness metric of `build_trace_json.main`
(lines 35-42).  `coverage_pct` is modelled as an exact rational. -/
structure PfxMetric where
  total : Nat
  withLinks : Nat
  coveragePct : ℚ
deriving DecidableEq, Repr

/-- List `ids` of the per-prefix metrics loop (line 36):
`[i['id'] for i in items if i['id'].startswith(prefix)]`. -/
def overallIds (items : List Item) (pfx : String) : List String :=
  (items.filter (fun i => pyStartsWith i.id pfx)).map (·.id)

/-- List `linked` of the per-prefix metrics loop (line 37):
`[i for i in ids if any(b for b in forward[i])]` — Python `any` over the
elements' truthiness. -/
def overallLinked (items : List Item) (pfx : String) : List String :=
  (overallIds items pfx).filter (fun i => (forwardGet items i).any pyTruthyStr)

/-- The per-prefix metric dict entry (lines 38-42). -/
def overallMetric (items : List Item) (pfx : String) : PfxMetric :=
  let ids := overallIds items pfx
  let linked := overallLinked items pfx
  { total := ids.length, withLinks := linked.length,
    coveragePct :=
      if ids.isEmpty then 100 else (linked.length : ℚ) / (ids.length : ℚ) * 100 }

/-- The metrics key for a prefix (line 38): `'requirement'` for `REQ`,
else the lower-cased prefix. -/
def metricKey (pfx : String) : String :=
  if pfx == "REQ" then "requirement" else pfx.toLower

/-- List `req_ids` of `build_trace_json.main` (line 50). -/
def reqIdsOf (items : List Item) : List String :=
  (items.filter (fun i => pyStartsWith i.id "REQ")).map (·.id)

/-- The gate `iid.startswith(('ADR','QA','TEST'))` of the reverse-link
pre-computation (line 60). -/
def inReverseTargets (iid : String) : Bool :=
  pyStartsWith iid "ADR" || pyStartsWith iid "QA" || pyStartsWith iid "TEST"

/-- The `if/elif/elif` classification (lines 63-68) of a gated id into
its reverse-link bucket. -/
def reverseBranch (iid : String) : String :=
  if pyStartsWith iid "ADR" then "ADR"
  else if pyStartsWith iid "QA" then "QA"
  else "TEST"

/-- Contents of `reverse_links[tgt][rid]` (lines 52-68): the ids of the
items that pass the target gate, reference `rid`, where `rid` starts with
`REQ`, and whose bucket is `tgt`.  The Python value is a set; this list
carries the same elements. -/
def reverseLinks (items : List Item) (tgt rid : String) : List String :=
  (items.filter (fun itm =>
      inReverseTargets itm.id && itm.references.contains rid &&
      pyStartsWith rid "REQ" && (reverseBranch itm.id == tgt))).map (·.id)

/-- The per-requirement link test inside `req_link_stat` (lines 74-79):
`has_forward or rev_set`. -/
def reqLinkedTo (items : List Item) (tgt rid : String) : Bool :=
  let fwdRefs := forwardGet items rid
  let hasForward := fwdRefs.any (fun r => pyStartsWith r tgt)
  hasForward || !(reverseLinks items tgt rid).isEmpty

/-- The metric object returned by `req_link_stat` (lines 85-91).
`details` maps each requirement id to its matching forward and (sorted)
reverse reference lists. -/
structure ReqPairMetric where
  totalRequirements : Nat
  requirementsWithLink : Nat
  coveragePct : ℚ
  details : List (String × List String × List String)
deriving DecidableEq, Repr

/-- Function `req_link_stat` of `build_trace_json.main` (lines 70-91). -/
def reqLinkStat (items : List Item) (tgt : String) : ReqPairMetric :=
  let rids := reqIdsOf items
  let countTotal := rids.length
  let countWith := (rids.filter (reqLinkedTo items tgt)).length
  { totalRequirements := countTotal
    requirementsWithLink := countWith
    coveragePct :=
      if countTotal == 0 then 100
      else (countWith : ℚ) / (countTotal : ℚ) * 100
    details := rids.map fun rid =>
      (rid, (forwardGet items rid).filter (fun r => pyStartsWith r tgt),
        pySorted (pySetList (reverseLinks items tgt rid))) }

/-- Output of the report-emitting tail of
`generate-traceability-matrix.py`: the process exit code and the two
report file contents. -/
structure ReportOutput where
  exitCode : Nat
  matrixContent : String
  orphansContent : String
deriving DecidableEq, Repr

/-- Python truthiness of `os.environ.get('ALLOW_EMPTY_SPECS')`: the
variable must be present and non-empty. -/
def envTruthy : Option String → Bool
  | none => false
  | some s => !(s == "")

/-- Dict lookup `req_links.get(req, [])` (line 178); `req_links` values
are sets, carried here as lists of their elements. -/
def lookupLinks (reqLinks : List (String × List String)) (req : String) : List String :=
  match reqLinks.find? (fun p => p.1 == req) with
  | some p => p.2
  | none => []

/-- The matrix body `matrix_lines` (lines 171-179): fixed header rows,
then one table row per requirement in sorted order, with its sorted
linked elements or `(none)`. -/
def matrixLines (allReqs : List String) (reqLinks : List (String × List String)) :
    List String :=
  ["# Traceability Matrix (Heuristic Draft)", "",
   "| Requirement | Linked Elements (ADR / Component / Scenario / Test) |",
   "|-------------|----------------------------------------------------|"] ++
  (pySorted (pySetList allReqs)).map fun req =>
    let joined := String.intercalate ", " (pySorted (pySetList (lookupLinks reqLinks req)))
    let linked := if joined == "" then "(none)" else joined
    "| " ++ req ++ " | " ++ linked ++ " |"

/-- The orphan report body `orphan_lines` (lines 183-191): a header,
then per category its items (or `- None`), each section followed by a
blank line. -/
def orphanLines (orphans : List (String × List String)) : List String :=
  ["# Orphan Analysis", ""] ++
  orphans.flatMap fun p =>
    ("## " ++ p.1) ::
      ((if p.2.isEmpty then ["- None"] else p.2.map (fun it => "- " ++ it)) ++ [""])

/-- The placeholder matrix written by the empty-scaffold branch
(line 166). -/
def emptyScaffoldMatrix : String :=
  "# Traceability Matrix\n\n_No governed spec items found (empty scaffold mode)._"

/-- The placeholder orphan report written by the empty-scaffold branch
(line 167). -/
def emptyScaffoldOrphans : String :=
  "# Orphan Analysis\n\n_No governed spec items found (empty scaffold mode)._"

/-- The report-emitting tail of `generate-traceability-matrix.py`
(lines 164-194).  `indexSets` are the values of the pattern index,
`allReqs`/`reqLinks`/`orphans` are the values computed by the upstream
scan and linkage-inference stages, `allowEmptySpecs` is the
`ALLOW_EMPTY_SPECS` environment variable.  The guard is
`not any(index.values()) and os.environ.get('ALLOW_EMPTY_SPECS')`
(line 165); the branch writes the two placeholder reports and raises
`SystemExit(0)`, and the normal path also ends with exit code 0. -/
def emitReports (indexSets : List (List String)) (allReqs : List String)
    (reqLinks : List (String × List String)) (orphans : List (String × List String))
    (allowEmptySpecs : Option String) : ReportOutput :=
  if indexSets.all List.isEmpty && envTruthy allowEmptySpecs then
    ⟨0, emptyScaffoldMatrix, emptyScaffoldOrphans⟩
  else
    ⟨0, String.intercalate "\n" (matrixLines allReqs reqLinks),
        String.intercalate "\n" (orphanLines orphans)⟩

/-- State of `_detect_circular_dependencies` of `enforce-traceability.py`
(lines 635-667): the `visited` and `rec_stack` sets (modelled as
duplicate-free lists in insertion order) and the accumulated
`circular_deps` list. -/
structure DfsState where
  visited : List String
  recStack : List String
  circularDeps : List (List String)
deriving DecidableEq, Repr

/-- Python `set.add`. -/
def pySetAdd (s : List String) (x : String) : List String :=
  if x ∈ s then s else s ++ [x]

/-- Python `set.remove` (the element is present whenever the source
calls it). -/
def pySetRemove (s : List String) (x : String) : List String := s.erase x

/-- The inner `dfs(req_id, path)` of `_detect_circular_dependencies`
(lines 641-661).  `db` is `requirements_db` as an ordered association
list id -> `downstream_links`.  A `ValueError` from `path.index(req_id)`
(line 644) is modelled as `Except.error "ValueError"`.  The
`for downstream_id in req.downstream_links` loop with its early
`return True` (lines 656-658) is the fold: once the accumulator carries
`true` (or an error) the remaining iterations do nothing.  `fuel` bounds
the recursion depth; every recursive call either stops or adds a fresh
node to `visited`, so any fuel larger than the number of ids mentioned
in `db` is enough. -/
def dfsVisit (db : List (String × List String)) :
    Nat → String → List String → DfsState → Except String (Bool × DfsState)
  | 0, _, _, _ => Except.error "fuel exhausted"
  | Nat.succ fuel, reqId, path, st =>
    if reqId ∈ st.recStack then
      match path.findIdx? (fun x => x == reqId) with
      | some k =>
          Except.ok (true,
            { st with circularDeps := st.circularDeps ++ [path.drop k ++ [reqId]] })
      | none => Except.error "ValueError"
    else if reqId ∈ st.visited then
      Except.ok (false, st)
    else
      let st1 : DfsState :=
        { st with visited := pySetAdd st.visited reqId,
                  recStack := pySetAdd st.recStack reqId }
      let links := match db.find? (fun p => p.1 == reqId) with
        | some p => p.2
        | none => []
      let res := links.foldl
        (fun acc l =>
          match acc with
          | Except.error e => Except.error e
          | Except.ok (true, st') => Except.ok (true, st')
          | Except.ok (false, st') => dfsVisit db fuel l (path ++ [reqId]) st')
        (Except.ok (false, st1))
      match res with
      | Except.error e => Except.error e
      | Except.ok (true, st2) => Except.ok (true, st2)
      | Except.ok (false, st2) =>
          Except.ok (false, { st2 with recStack := pySetRemove st2.recStack reqId })

/-- The outer `for req_id in self.requirements_db` loop of
`_detect_circular_dependencies` (lines 663-665). -/
def detectOuter (db : List (String × List String)) (fuel : Nat) :
    List String → DfsState → Except String DfsState
  | [], st => Except.ok st
  | k :: ks, st =>
    if k ∈ st.visited then detectOuter db fuel ks st
    else
      match dfsVisit db fuel k [] st with
      | Except.error e => Except.error e
      | Except.ok (_, st') => detectOuter db fuel ks st'

/-- Function `_detect_circular_dependencies` (lines 635-667): runs the
DFS from every not-yet-visited id and returns `circular_deps`; an
uncaught `ValueError` aborts the function instead of returning. -/
def detectCircularDependencies (db : List (String × List String)) (fuel : Nat) :
    Except String (List (List String)) :=
  match detectOuter db fuel (db.map Prod.fst) ⟨[], [], []⟩ with
  | Except.error e => Except.error e
  | Except.ok st => Except.ok st.circularDeps

/-! ### Basic lemmas about the Python set / sorted models -/

theorem mem_dedupAux {x : String} :
    ∀ (xs seen : List String), x ∈ dedupAux xs seen ↔ x ∈ xs ∧ x ∉ seen := by
  intro xs
  induction xs with
  | nil => intro seen; simp [dedupAux]
  | cons y ys ih =>
      intro seen
      by_cases hy : y ∈ seen
      · simp only [dedupAux, if_pos hy, ih, List.mem_cons]
        constructor
        · rintro ⟨hx, hns⟩; exact ⟨Or.inr hx, hns⟩
        · rintro ⟨hx | hx, hns⟩
          · exact absurd (hx ▸ hy) hns
          · exact ⟨hx, hns⟩
      · simp only [dedupAux, if_neg hy, List.mem_cons, ih]
        by_cases hxy : x = y <;> subst_eqs <;> tauto

theorem nodup_dedupAux : ∀ (xs seen : List String), (dedupAux xs seen).Nodup := by
  intro xs
  induction xs with
  | nil => intro seen; simp [dedupAux]
  | cons y ys ih =>
      intro seen
      by_cases hy : y ∈ seen
      · simpa [dedupAux, if_pos hy] using ih seen
      · simp only [dedupAux, if_neg hy, List.nodup_cons]
        refine ⟨fun hc => ?_, ih _⟩
        exact ((mem_dedupAux ys (y :: seen)).mp hc).2 (List.mem_cons_self y seen)

theorem mem_pySetList {x : String} {xs : List String} : x ∈ pySetList xs ↔ x ∈ xs := by
  simp [pySetList, mem_dedupAux]

theorem nodup_pySetList (xs : List String) : (pySetList xs).Nodup :=
  nodup_dedupAux xs []

theorem mem_insertSorted {a x : String} :
    ∀ (l : List String), a ∈ insertSorted x l ↔ a = x ∨ a ∈ l := by
  intro l
  induction l with
  | nil => simp [insertSorted]
  | cons y ys ih =>
      by_cases h : strLe x y
      · simp [insertSorted, if_pos h]
      · simp only [insertSorted, if_neg h, List.mem_cons, ih]
        tauto

theorem nodup_insertSorted {x : String} :
    ∀ {l : List String}, l.Nodup → x ∉ l → (insertSorted x l).Nodup := by
  intro l
  induction l with
  | nil => intro _ _; simp [insertSorted]
  | cons y ys ih =>
      intro hnd hx
      rcases List.nodup_cons.mp hnd with ⟨hy, hys⟩
      rw [List.mem_cons, not_or] at hx
      by_cases h : strLe x y
      · simp only [insertSorted, if_pos h, List.nodup_cons, List.mem_cons]
        exact ⟨fun hc => hc.elim hx.1 hx.2, hy, hys⟩
      · simp only [insertSorted, if_neg h, List.nodup_cons]
        constructor
        · intro hc
          rcases (mem_insertSorted ys).mp hc with rfl | hc
          · exact hx.1 rfl
          · exact hy hc
        · exact ih hys hx.2

theorem mem_pySorted {a : String} : ∀ {xs : List String}, a ∈ pySorted xs ↔ a ∈ xs := by
  intro xs
  induction xs with
  | nil => simp [pySorted]
  | cons y ys ih =>
      show a ∈ insertSorted y (pySorted ys) ↔ _
      rw [mem_insertSorted, ih]
      simp

theorem nodup_pySorted : ∀ {xs : List String}, xs.Nodup → (pySorted xs).Nodup := by
  intro xs
  induction xs with
  | nil => intro _; simp [pySorted]
  | cons y ys ih =>
      intro hnd
      rcases List.nodup_cons.mp hnd with ⟨hy, hys⟩
      show (insertSorted y (pySorted ys)).Nodup
      exact nodup_insertSorted (ih hys) (fun hc => hy (mem_pySorted.mp hc))

/-! ### Lemmas about the forward dict and derived backward map -/

theorem find?_map_keyfn (items : List Item) (k : String) :
    ∀ (l : List String),
      ((l.map (fun k' => (k', fwdValue items k'))).find? (fun p => p.1 == k)) =
        if k ∈ l then some (k, fwdValue items k) else none := by
  intro l
  induction l with
  | nil => simp
  | cons a l ih =>
      by_cases ha : a = k
      · subst ha
        simp [List.find?]
      · simp only [List.map_cons, List.find?, List.mem_cons]
        have : (a == k) = false := by simp [ha]
        simp [this, ih, Ne.symm ha]

theorem forwardGet_eq (items : List Item) (k : String) :
    forwardGet items k =
      if k ∈ pySetList (itemIds items) then fwdValue items k else [] := by
  unfold forwardGet dictGet forwardDict
  rw [find?_map_keyfn]
  by_cases h : k ∈ pySetList (itemIds items) <;> simp [h]

theorem mem_forwardDict {e : String × List String} {items : List Item} :
    e ∈ forwardDict items ↔
      e.1 ∈ pySetList (itemIds items) ∧ e.2 = fwdValue items e.1 := by
  unfold forwardDict
  rw [List.mem_map]
  constructor
  · rintro ⟨k, hk, rfl⟩; exact ⟨hk, rfl⟩
  · rintro ⟨h1, h2⟩
    exact ⟨e.1, h1, by rw [← h2]⟩

theorem mem_backwardList {a r : String} {items : List Item} :
    a ∈ backwardList items r ↔
      ∃ e ∈ forwardDict items, e.1 = a ∧ r ∈ e.2 := by
  unfold backwardList
  rw [List.mem_flatMap]
  constructor
  · rintro ⟨e, he, hmem⟩
    rcases List.mem_map.mp hmem with ⟨b, hb, rfl⟩
    rcases List.mem_filter.mp hb with ⟨hbe, hbr⟩
    exact ⟨e, he, rfl, (beq_iff_eq.mp hbr) ▸ hbe⟩
  · rintro ⟨e, he, rfl, hr⟩
    refine ⟨e, he, List.mem_map.mpr ⟨r, List.mem_filter.mpr ⟨hr, beq_self_eq_true r⟩, rfl⟩⟩

theorem mem_backwardKeys {x : String} {items : List Item} :
    x ∈ backwardKeys items ↔ ∃ e ∈ forwardDict items, x ∈ e.2 := by
  unfold backwardKeys
  rw [mem_pySetList, List.mem_flatMap]

/-- C6: for every item built by `build_item`, the reference list is the
deduplicated (each referenced identifier appears at most once) set of
all `REF_PATTERN` matches found anywhere in the document's text, minus
the item's own identifier. -/
theorem c6_build_item_references (id_ title path text : String) :
    ((buildItem id_ title path text).references).Nodup ∧
    ∀ r, r ∈ (buildItem id_ title path text).references ↔
      (r ∈ findallRefs text ∧ r ≠ id_) := by
  constructor
  · exact nodup_pySorted (nodup_pySetList _)
  · intro r
    show r ∈ pySorted (pySetList _) ↔ _
    rw [mem_pySorted, mem_pySetList, List.mem_filter]
    simp

/-- C3: for every pair of items `A` and `X` of the constructed graph,
`X`'s identifier appears in the forward-reference list stored for `A`'s
identifier if and only if `A`'s identifier appears in the backward list
keyed by `X`'s identifier — the backward map is the inversion of the
forward map. -/
theorem c3_forward_backward_inversion (items : List Item) (A X : Item)
    (hA : A ∈ items) (_hX : X ∈ items) :
    X.id ∈ forwardGet items A.id ↔ A.id ∈ backwardList items X.id := by
  have hk : A.id ∈ pySetList (itemIds items) :=
    mem_pySetList.mpr (List.mem_map_of_mem _ hA)
  rw [forwardGet_eq, if_pos hk, mem_backwardList]
  constructor
  · intro h
    exact ⟨(A.id, fwdValue items A.id), mem_forwardDict.mpr ⟨hk, rfl⟩, rfl, h⟩
  · rintro ⟨e, he, he1, hr⟩
    rcases mem_forwardDict.mp he with ⟨_, hval⟩
    rw [hval, he1] at hr
    exact hr

theorem buildItem_refs_nodup (id_ title path text : String) :
    ((buildItem id_ title path text).references).Nodup :=
  nodup_pySorted (nodup_pySetList _)

theorem mem_buildItem_references {r id_ title path text : String} :
    r ∈ (buildItem id_ title path text).references ↔
      (r ∈ findallRefs text ∧ r ≠ id_) := by
  show r ∈ pySorted (pySetList _) ↔ _
  rw [mem_pySorted, mem_pySetList, List.mem_filter]
  simp

/-- Witness for C3 at a concrete two-item corpus: the requirement's
forward reference to the ADR appears as a backward reference of the
ADR. -/
theorem c3_forward_backward_inversion_witness :
    let items : List Item :=
      [⟨"REQ-F-001", "t", "a.md", ["ADR-001"]⟩, ⟨"ADR-001", "t", "b.md", []⟩]
    ("ADR-001" ∈ forwardGet items "REQ-F-001") ↔
      ("REQ-F-001" ∈ backwardList items "ADR-001") :=
  c3_forward_backward_inversion
    [⟨"REQ-F-001", "t", "a.md", ["ADR-001"]⟩, ⟨"ADR-001", "t", "b.md", []⟩]
    ⟨"REQ-F-001", "t", "a.md", ["ADR-001"]⟩ ⟨"ADR-001", "t", "b.md", []⟩
    (by decide) (by decide)

/-! ### Nodup structure of the backward lists -/

theorem filter_beq_length_le_one {r : String} :
    ∀ {l : List String}, l.Nodup → (l.filter (fun x => x == r)).length ≤ 1 := by
  intro l
  induction l with
  | nil => intro _; simp
  | cons a l ih =>
      intro hnd
      rcases List.nodup_cons.mp hnd with ⟨ha, hl⟩
      by_cases h : a = r
      · subst h
        have hz : l.filter (fun x => x == a) = [] := by
          apply List.filter_eq_nil_iff.mpr
          intro b hb
          simp only [beq_iff_eq]
          rintro rfl
          exact ha hb
        simp [List.filter_cons, hz]
      · have : (a == r) = false := by simp [h]
        simp only [List.filter_cons, this, cond_false]
        exact ih hl

theorem nodup_of_length_le_one : ∀ (l : List String), l.length ≤ 1 → l.Nodup := by
  intro l h
  match l, h with
  | [], _ => simp
  | [a], _ => simp

theorem chunk_elem_eq {a x r : String} {l : List String}
    (h : a ∈ (l.filter (fun y => y == r)).map (fun _ => x)) : a = x := by
  rcases List.mem_map.mp h with ⟨b, _, rfl⟩
  rfl

theorem nodup_flatMap_backward (r : String) :
    ∀ (d : List (String × List String)), (d.map Prod.fst).Nodup →
      (∀ e ∈ d, e.2.Nodup) →
      (d.flatMap (fun e => (e.2.filter (fun x => x == r)).map (fun _ => e.1))).Nodup := by
  intro d
  induction d with
  | nil => intro _ _; simp
  | cons e d ih =>
      intro hkeys hvals
      rcases List.nodup_cons.mp hkeys with ⟨hk, hks⟩
      rw [List.flatMap_cons, List.nodup_append]
      refine ⟨?_, ih hks (fun e' he' => hvals e' (List.mem_cons_of_mem _ he')), ?_⟩
      · refine nodup_of_length_le_one _ ?_
        rw [List.length_map]
        exact filter_beq_length_le_one (hvals e (List.mem_cons_self e d))
      · intro a hae had
        have h1 : a = e.1 := chunk_elem_eq hae
        rcases List.mem_flatMap.mp had with ⟨e', he', hae'⟩
        have h2 : a = e'.1 := chunk_elem_eq hae'
        exact hk (h1 ▸ h2 ▸ List.mem_map_of_mem Prod.fst he')

theorem fwdValue_nodup {items : List Item}
    (hrefs : ∀ it ∈ items, it.references.Nodup) (k : String) :
    (fwdValue items k).Nodup := by
  unfold fwdValue
  cases h : items.reverse.find? (fun i => i.id == k) with
  | none => simp
  | some i =>
      exact hrefs i (List.mem_reverse.mp (List.mem_of_find?_eq_some h))

theorem forwardDict_keys (items : List Item) :
    (forwardDict items).map Prod.fst = pySetList (itemIds items) := by
  rw [forwardDict, List.map_map,
    show (Prod.fst ∘ fun k => (k, fwdValue items k)) = id from rfl, List.map_id]

theorem nodup_backwardList {items : List Item}
    (hrefs : ∀ it ∈ items, it.references.Nodup) (r : String) :
    (backwardList items r).Nodup := by
  unfold backwardList
  apply nodup_flatMap_backward
  · rw [forwardDict_keys]; exact nodup_pySetList _
  · intro e he
    rcases mem_forwardDict.mp he with ⟨_, hval⟩
    rw [hval]
    exact fwdValue_nodup hrefs e.1

theorem fwdValue_of_nodup {items : List Item}
    (hnd : (itemIds items).Nodup) {it : Item} (hit : it ∈ items) :
    fwdValue items it.id = it.references := by
  unfold fwdValue
  cases h : items.reverse.find? (fun i => i.id == it.id) with
  | none =>
      exfalso
      have := List.find?_eq_none.mp h it (List.mem_reverse.mpr hit)
      simp at this
  | some j =>
      have hj : j ∈ items := List.mem_reverse.mp (List.mem_of_find?_eq_some h)
      have hid : j.id = it.id := by
        have := List.find?_some h
        simpa using this
      have hinj := List.inj_on_of_nodup_map (f := Item.id) hnd
      show j.references = it.references
      rw [hinj hj hit hid]

/-- A raw input document of the parser: primary id, title, path, and the
full text.  The pipeline builds one `Item` from it via `build_item`. -/
structure Doc where
  id : String
  title : String
  path : String
  text : String
deriving DecidableEq, Repr

/-- The item `build_item` constructs for a document. -/
def mkItem (d : Doc) : Item := buildItem d.id d.title d.path d.text

/-- C10 (implicit): forward references are never validated against the
set of declared items.  For any corpus of documents, with
`items = docs.map mkItem`: (a) every `REF_PATTERN` match other than the
item's own id lands in the reference list — no condition whatsoever
relates the match to a declared item; (b) any reference of any item
(declared anywhere or not) becomes a key of the backward map (stated
under the id-uniqueness the upstream de-duplication guarantees);
(c) the backward key set is exactly the set of identifiers referenced by
the forward entries; and (d) every backward list is duplicate-free. -/
theorem c10_references_unvalidated (docs : List Doc) (it : Item) (r : String)
    (hit : it ∈ docs.map mkItem) (hr : r ∈ it.references)
    (hnd : (itemIds (docs.map mkItem)).Nodup) :
    (∀ i t p txt x, x ∈ findallRefs txt → x ≠ i →
        x ∈ (buildItem i t p txt).references) ∧
    (r ∈ backwardKeys (docs.map mkItem)) ∧
    (∀ x, x ∈ backwardKeys (docs.map mkItem) ↔
        ∃ e ∈ forwardDict (docs.map mkItem), x ∈ e.2) ∧
    (∀ x, (backwardList (docs.map mkItem) x).Nodup) := by
  have hrefs : ∀ j ∈ docs.map mkItem, j.references.Nodup := by
    intro j hj
    rcases List.mem_map.mp hj with ⟨d, _, rfl⟩
    exact buildItem_refs_nodup d.id d.title d.path d.text
  refine ⟨?_, ?_, fun x => mem_backwardKeys, fun x => nodup_backwardList hrefs x⟩
  · intro i t p txt x hx hxi
    exact mem_buildItem_references.mpr ⟨hx, hxi⟩
  · apply mem_backwardKeys.mpr
    refine ⟨(it.id, fwdValue (docs.map mkItem) it.id),
      mem_forwardDict.mpr ⟨mem_pySetList.mpr (List.mem_map_of_mem _ hit), rfl⟩, ?_⟩
    rw [fwdValue_of_nodup hnd hit]
    exact hr

/-- Witness for C10: a one-document corpus whose text mentions
`ADR-999`, an identifier declared by no document; it still becomes a key
of the backward map. -/
theorem c10_references_unvalidated_witness :
    "ADR-999" ∈ backwardKeys ([Doc.mk "REQ-F-001" "t" "p" "see ADR-999 too"].map mkItem) :=
  (c10_references_unvalidated [Doc.mk "REQ-F-001" "t" "p" "see ADR-999 too"]
    (mkItem (Doc.mk "REQ-F-001" "t" "p" "see ADR-999 too")) "ADR-999"
    (by decide) (by decide) (by decide)).2.1

/-! ### The per-prefix completeness metrics -/

theorem forwardGet_subset {items : List Item} {k r : String}
    (h : r ∈ forwardGet items k) : ∃ it ∈ items, r ∈ it.references := by
  rw [forwardGet_eq] at h
  by_cases hk : k ∈ pySetList (itemIds items)
  · rw [if_pos hk] at h
    unfold fwdValue at h
    cases hf : items.reverse.find? (fun i => i.id == k) with
    | none => rw [hf] at h; simp at h
    | some i =>
        rw [hf] at h
        exact ⟨i, List.mem_reverse.mp (List.mem_of_find?_eq_some hf), h⟩
  · rw [if_neg hk] at h
    simp at h

/-- C9 (implicit): the overall per-prefix completeness metrics count an
identifier as linked exactly when its own forward-reference list is
non-empty (Python truthiness of its elements, which are non-empty
pattern matches); incoming references from other items play no role
here, in contrast with the symmetric rule of `req_link_stat` (C1). -/
theorem c9_overall_metric_forward_only (items : List Item) (pfx : String)
    (hne : ∀ it ∈ items, ∀ r ∈ it.references, r ≠ "")
    (i : String) (hi : i ∈ overallIds items pfx) :
    i ∈ overallLinked items pfx ↔ forwardGet items i ≠ [] := by
  unfold overallLinked
  rw [List.mem_filter]
  constructor
  · rintro ⟨-, hany⟩
    rcases List.any_eq_true.mp hany with ⟨s, hs, -⟩
    exact List.ne_nil_of_mem hs
  · intro hne'
    refine ⟨hi, List.any_eq_true.mpr ?_⟩
    rcases List.exists_mem_of_ne_nil _ hne' with ⟨s, hs⟩
    rcases forwardGet_subset hs with ⟨it, hits, hsr⟩
    refine ⟨s, hs, ?_⟩
    simpa [pyTruthyStr] using hne it hits s hsr

/-- Witness for C9: `REQ-F-002` has an empty forward list but an
incoming reference from `ADR-001`; the overall metric still counts it as
unlinked, as the equivalence instantiates. -/
theorem c9_overall_metric_forward_only_witness :
    ("REQ-F-002" ∈ overallLinked
        [⟨"REQ-F-001", "t", "a", ["ADR-001"]⟩, ⟨"REQ-F-002", "t", "b", []⟩,
         ⟨"ADR-001", "t", "c", ["REQ-F-001", "REQ-F-002"]⟩] "REQ") ↔
      forwardGet
        [⟨"REQ-F-001", "t", "a", ["ADR-001"]⟩, ⟨"REQ-F-002", "t", "b", []⟩,
         ⟨"ADR-001", "t", "c", ["REQ-F-001", "REQ-F-002"]⟩] "REQ-F-002" ≠ [] :=
  c9_overall_metric_forward_only
    [⟨"REQ-F-001", "t", "a", ["ADR-001"]⟩, ⟨"REQ-F-002", "t", "b", []⟩,
     ⟨"ADR-001", "t", "c", ["REQ-F-001", "REQ-F-002"]⟩] "REQ"
    (by decide) "REQ-F-002" (by decide)

/-- C2: every coverage percentage is exactly 100 when its set of source
identifiers is empty — the guarded expressions
`(... * 100) if ids else 100.0` and
`(... * 100) if count_total else 100.0` never divide by zero. -/
theorem c2_vacuous_coverage_is_100 (items : List Item) (p tgt : String)
    (h1 : overallIds items p = []) (h2 : reqIdsOf items = []) :
    (overallMetric items p).coveragePct = 100 ∧
    (reqLinkStat items tgt).coveragePct = 100 := by
  constructor
  · simp [overallMetric, h1]
  · simp [reqLinkStat, h2]

/-- Witness for C2: the empty corpus has 100% coverage in the `REQ`
overall metric and the requirement-to-ADR pair metric. -/
theorem c2_vacuous_coverage_is_100_witness :
    (overallMetric [] "REQ").coveragePct = 100 ∧
    (reqLinkStat [] "ADR").coveragePct = 100 :=
  c2_vacuous_coverage_is_100 [] "REQ" "ADR" rfl rfl

/-! ### The empty-scaffold branch and the cycle detector -/

/-- C7: when no governed identifiers were found (every pattern's
identifier set is empty) and the `ALLOW_EMPTY_SPECS` toggle is set, the
generator writes the minimal placeholder traceability matrix and orphan
analysis and exits with code 0. -/
theorem c7_empty_scaffold_reports (indexSets : List (List String))
    (allReqs : List String) (reqLinks orphans : List (String × List String))
    (env : Option String)
    (h1 : indexSets.all List.isEmpty = true) (h2 : envTruthy env = true) :
    emitReports indexSets allReqs reqLinks orphans env =
      ⟨0, emptyScaffoldMatrix, emptyScaffoldOrphans⟩ := by
  simp [emitReports, h1, h2]

/-- Witness for C7 at a concrete empty index with `ALLOW_EMPTY_SPECS=1`. -/
theorem c7_empty_scaffold_reports_witness :
    emitReports [[], [], []] [] [] [] (some "1") =
      ⟨0, emptyScaffoldMatrix, emptyScaffoldOrphans⟩ :=
  c7_empty_scaffold_reports [[], [], []] [] [] [] (some "1") (by decide) (by decide)

/-- C8 is a code bug: the DFS never removes a node from `rec_stack` when
it propagates `True` after finding a cycle, so the stale stack leaks
into the traversal of the next root.  On the two-node cycle alone the
function does return the genuine cycle, but as soon as a third
requirement `REQ-C` references a node of the already-found cycle, the
check `req_id in rec_stack` fires for a node that is not on the current
path and `path.index(req_id)` raises an uncaught `ValueError` — the
function aborts instead of returning the violation list the claim
describes. -/
theorem c8_cycle_detector_valueerror :
    detectCircularDependencies [("REQ-A", ["REQ-B"]), ("REQ-B", ["REQ-A"])] 10 =
      Except.ok [["REQ-A", "REQ-B", "REQ-A"]] ∧
    detectCircularDependencies
      [("REQ-A", ["REQ-B"]), ("REQ-B", ["REQ-A"]), ("REQ-C", ["REQ-B"])] 10 =
      Except.error "ValueError" :=
  ⟨rfl, rfl⟩

/-! ### The de-duplication loop of the parser (C4) -/

/-- Specification-side description of what the loop keeps ("the builder
keeps the first occurrence encountered"): the first item declared for
each identifier, in traversal order, skipping identifiers already in
`seen`. -/
def keepFirstsAvoiding (seen : List String) : List Item → List Item
  | [] => []
  | i :: rest =>
      if i.id ∈ seen then keepFirstsAvoiding seen rest
      else i :: keepFirstsAvoiding (i.id :: seen) rest

/-- Number of items declaring identifier `k`. -/
def idCount (k : String) (l : List Item) : Nat :=
  (l.filter (fun i => i.id == k)).length

/-- Lookup in the `duplicates` dict model. -/
def dupLookup : List (String × Nat) → String → Option Nat
  | [], _ => none
  | p :: ps, k => if p.1 = k then some p.2 else dupLookup ps k

theorem dupLookup_dupUpdate (d : List (String × Nat)) (k k' : String) :
    dupLookup (dupUpdate d k) k' =
      if k' = k then
        (match dupLookup d k with
         | some c => some (c + 1)
         | none => some 2)
      else dupLookup d k' := by
  induction d with
  | nil =>
      by_cases h : k' = k
      · subst h; simp [dupUpdate, dupLookup]
      · simp [dupUpdate, dupLookup, h, Ne.symm h]
  | cons p ps ih =>
      by_cases hp : p.1 = k
      · by_cases h : k' = k
        · subst h
          simp [dupUpdate, dupLookup, hp]
        · have hq : p.1 ≠ k' := fun hc => h (hc.symm.trans hp)
          simp [dupUpdate, dupLookup, hp, hq, h, Ne.symm h]
      · by_cases h : k' = k
        · subst h
          simp [dupUpdate, dupLookup, hp, ih]
        · by_cases hq : p.1 = k'
          · simp [dupUpdate, dupLookup, hp, hq, h]
          · simp [dupUpdate, dupLookup, hp, hq, h, ih]

theorem dedupFold_items :
    ∀ (itemsL : List Item) (st : DedupState) (seen : List String),
      (∀ x, x ∈ st.seenIds ↔ x ∈ seen) →
      (itemsL.foldl dedupStep st).dedupItems =
        st.dedupItems ++ keepFirstsAvoiding seen itemsL := by
  intro itemsL
  induction itemsL with
  | nil => intro st seen _; simp [keepFirstsAvoiding]
  | cons i rest ih =>
      intro st seen h
      rw [List.foldl_cons]
      by_cases hm : i.id ∈ seen
      · have hm' : i.id ∈ st.seenIds := (h i.id).mpr hm
        have hstep : dedupStep st i =
            { st with dupCounts := dupUpdate st.dupCounts i.id } := by
          simp [dedupStep, hm']
        rw [hstep,
          ih { st with dupCounts := dupUpdate st.dupCounts i.id } seen (fun x => h x),
          keepFirstsAvoiding, if_pos hm]
      · have hm' : i.id ∉ st.seenIds := fun hc => hm ((h i.id).mp hc)
        have hstep : dedupStep st i =
            ⟨st.seenIds ++ [i.id], st.dedupItems ++ [i], st.dupCounts⟩ := by
          simp [dedupStep, hm']
        have hseen : ∀ x, x ∈ st.seenIds ++ [i.id] ↔ x ∈ i.id :: seen := by
          intro x
          simp only [List.mem_append, List.mem_singleton, List.mem_cons]
          rw [h x]
          tauto
        rw [hstep,
          ih ⟨st.seenIds ++ [i.id], st.dedupItems ++ [i], st.dupCounts⟩
            (i.id :: seen) hseen,
          keepFirstsAvoiding, if_neg hm]
        simp

theorem dedupFold_counts :
    ∀ (itemsL : List Item) (st : DedupState) (cnt : String → Nat),
      (∀ k, k ∈ st.seenIds ↔ 1 ≤ cnt k) →
      (∀ k, dupLookup st.dupCounts k =
          if 2 ≤ cnt k then some (cnt k) else none) →
      ∀ k, dupLookup ((itemsL.foldl dedupStep st)).dupCounts k =
        if 2 ≤ cnt k + idCount k itemsL then some (cnt k + idCount k itemsL)
        else none := by
  intro itemsL
  induction itemsL with
  | nil =>
      intro st cnt _ h2 k
      simpa [idCount] using h2 k
  | cons i rest ih =>
      intro st cnt h1 h2 k
      rw [List.foldl_cons]
      have hcount : ∀ k', idCount k' (i :: rest) =
          (if i.id = k' then 1 else 0) + idCount k' rest := by
        intro k'
        by_cases hik : i.id = k'
        · have hb : (i.id == k') = true := by simp [hik]
          simp only [idCount, List.filter_cons, hb, if_true, List.length_cons,
            if_pos hik]
          omega
        · have hb : (i.id == k') = false := by simp [hik]
          simp only [idCount, List.filter_cons, hb, Bool.false_eq_true, if_false,
            if_neg hik]
          omega
      by_cases hm : i.id ∈ st.seenIds
      · have hstep : dedupStep st i =
            { st with dupCounts := dupUpdate st.dupCounts i.id } := by
          simp [dedupStep, hm]
        have hone : 1 ≤ cnt i.id := (h1 i.id).mp hm
        have hseen' : ∀ k', k' ∈ st.seenIds ↔
            1 ≤ (if k' = i.id then cnt k' + 1 else cnt k') := by
          intro k'
          by_cases hk : k' = i.id
          · subst hk
            rw [if_pos rfl]
            exact iff_of_true hm (by omega)
          · rw [if_neg hk]
            exact h1 k'
        have hdup' : ∀ k', dupLookup (dupUpdate st.dupCounts i.id) k' =
            if 2 ≤ (if k' = i.id then cnt k' + 1 else cnt k') then
              some (if k' = i.id then cnt k' + 1 else cnt k')
            else none := by
          intro k'
          rw [dupLookup_dupUpdate]
          by_cases hk : k' = i.id
          · subst hk
            rw [h2]
            rcases Nat.lt_or_ge (cnt i.id) 2 with hlt | hge
            · have hcnt1 : cnt i.id = 1 := by omega
              simp [hcnt1]
            · have hge' : 2 ≤ cnt i.id + 1 := by omega
              simp [hge, hge']
          · rw [if_neg hk, if_neg hk, h2]
        have hrec := ih { st with dupCounts := dupUpdate st.dupCounts i.id }
          (fun k' => if k' = i.id then cnt k' + 1 else cnt k') hseen' hdup' k
        rw [hstep, hrec, hcount k]
        by_cases hk : k = i.id
        · subst hk
          have e1 : (if i.id = i.id then cnt i.id + 1 else cnt i.id) = cnt i.id + 1 :=
            if_pos rfl
          have e2 : (if i.id = i.id then 1 else 0) = 1 := if_pos rfl
          rw [e1, e2]
          have heq : cnt i.id + 1 + idCount i.id rest =
              cnt i.id + (1 + idCount i.id rest) := by omega
          rw [heq]
        · have e1 : (if k = i.id then cnt k + 1 else cnt k) = cnt k := if_neg hk
          have e2 : (if i.id = k then 1 else 0) = 0 := if_neg (fun hc => hk hc.symm)
          rw [e1, e2, Nat.zero_add]
      · have hzero : cnt i.id = 0 := by
          have hno : ¬ 1 ≤ cnt i.id := fun hc => hm ((h1 i.id).mpr hc)
          omega
        have hstep : dedupStep st i =
            ⟨st.seenIds ++ [i.id], st.dedupItems ++ [i], st.dupCounts⟩ := by
          simp [dedupStep, hm]
        have hseen' : ∀ k', k' ∈ st.seenIds ++ [i.id] ↔
            1 ≤ (if k' = i.id then cnt k' + 1 else cnt k') := by
          intro k'
          by_cases hk : k' = i.id
          · subst hk
            rw [if_pos rfl]
            exact iff_of_true (List.mem_append.mpr (Or.inr (List.mem_singleton.mpr rfl)))
              (by omega)
          · rw [if_neg hk]
            rw [List.mem_append, List.mem_singleton]
            constructor
            · rintro (hs | rfl)
              · exact (h1 k').mp hs
              · exact absurd rfl hk
            · intro hc
              exact Or.inl ((h1 k').mpr hc)
        have hdup' : ∀ k', dupLookup st.dupCounts k' =
            if 2 ≤ (if k' = i.id then cnt k' + 1 else cnt k') then
              some (if k' = i.id then cnt k' + 1 else cnt k')
            else none := by
          intro k'
          by_cases hk : k' = i.id
          · subst hk
            rw [h2, hzero]
            simp
          · rw [if_neg hk, h2]
        have hrec := ih ⟨st.seenIds ++ [i.id], st.dedupItems ++ [i], st.dupCounts⟩
          (fun k' => if k' = i.id then cnt k' + 1 else cnt k') hseen' hdup' k
        rw [hstep, hrec, hcount k]
        by_cases hk : k = i.id
        · subst hk
          have e1 : (if i.id = i.id then cnt i.id + 1 else cnt i.id) = cnt i.id + 1 :=
            if_pos rfl
          have e2 : (if i.id = i.id then 1 else 0) = 1 := if_pos rfl
          rw [e1, e2]
          have heq : cnt i.id + 1 + idCount i.id rest =
              cnt i.id + (1 + idCount i.id rest) := by omega
          rw [heq]
        · have e1 : (if k = i.id then cnt k + 1 else cnt k) = cnt k := if_neg hk
          have e2 : (if i.id = k then 1 else 0) = 0 := if_neg (fun hc => hk hc.symm)
          rw [e1, e2, Nat.zero_add]

theorem mem_map_fst_iff_lookup (d : List (String × Nat)) (k : String) :
    k ∈ d.map Prod.fst ↔ dupLookup d k ≠ none := by
  induction d with
  | nil => simp [dupLookup]
  | cons p ps ih =>
      by_cases hp : p.1 = k
      · simp [dupLookup, hp]
      · simp [dupLookup, hp, ih, Ne.symm hp]

/-- Occurrence of `pat` as a contiguous run inside `l`. -/
def listInfix (pat : List Char) : List Char → Bool
  | [] => pat.isEmpty
  | c :: t => pat.isPrefixOf (c :: t) || listInfix pat t

/-- Substring occurrence test, used to state what the duplicate
diagnostics do (and do not) mention. -/
def hasSubstr (s pat : String) : Bool := listInfix pat.data s.data

/-- C4 counterexample: two documents declare `REQ-F-007` as primary id.
The loop keeps the first item, and the duplicate record that reaches the
output (`duplicateIds`) and stderr (`duplicateReportLines`) carries only
the identifier and an occurrence count — no emitted string mentions the
second document's path `02-requirements/b.md`, refuting the claim that
the diagnostic names both source file paths. -/
theorem c4_duplicates_counterexample :
    (dedupPass
        [⟨"REQ-F-007", "first", "02-requirements/a.md", []⟩,
         ⟨"REQ-F-007", "second", "02-requirements/b.md", []⟩]).dedupItems =
      [⟨"REQ-F-007", "first", "02-requirements/a.md", []⟩] ∧
    (dedupPass
        [⟨"REQ-F-007", "first", "02-requirements/a.md", []⟩,
         ⟨"REQ-F-007", "second", "02-requirements/b.md", []⟩]).dupCounts =
      [("REQ-F-007", 2)] ∧
    ((duplicateIds
        [⟨"REQ-F-007", "first", "02-requirements/a.md", []⟩,
         ⟨"REQ-F-007", "second", "02-requirements/b.md", []⟩] ++
      duplicateReportLines
        [⟨"REQ-F-007", "first", "02-requirements/a.md", []⟩,
         ⟨"REQ-F-007", "second", "02-requirements/b.md", []⟩]).all
      (fun s => !(hasSubstr s "02-requirements/b.md"))) = true := by
  refine ⟨by decide, by decide, by decide⟩

/-- C4 as amended: the de-duplication loop keeps exactly the
first-encountered item for every identifier, and every identifier
declared more than once is recorded — keyed by identifier with its
occurrence count (not by the source file paths) — in the `duplicates`
dict whose keys are emitted as `duplicateIds`; duplicates are never
silently dropped. -/
theorem c4_duplicates_amended (allItems : List Item) :
    (dedupPass allItems).dedupItems = keepFirstsAvoiding [] allItems ∧
    (∀ k, dupLookup (dedupPass allItems).dupCounts k =
        if 2 ≤ idCount k allItems then some (idCount k allItems) else none) ∧
    (∀ k, k ∈ duplicateIds allItems ↔ 2 ≤ idCount k allItems) := by
  have h1 := dedupFold_items allItems ⟨[], [], []⟩ [] (fun x => by simp)
  have h2 := dedupFold_counts allItems ⟨[], [], []⟩ (fun _ => 0)
    (fun k => by simp) (fun k => by simp [dupLookup])
  refine ⟨by simpa using h1, fun k => by simpa using h2 k, fun k => ?_⟩
  rw [duplicateIds, mem_map_fst_iff_lookup]
  have hk := h2 k
  simp only [Nat.zero_add] at hk
  rw [show (dedupPass allItems).dupCounts = (allItems.foldl dedupStep ⟨[], [], []⟩).dupCounts from rfl, hk]
  by_cases hc : 2 ≤ idCount k allItems
  · simp [hc]
  · simp [hc]

/-! ### Shape of matches of the `ADR-\d{3}` pattern (C5) -/

theorem mem_reMatches_chr {c : Char} {prev : Option Char} {s : List Char}
    {t : List Char × Option Char × List Char} :
    t ∈ reMatches (RE.chr c) prev s ↔ ∃ as, s = c :: as ∧ t = ([c], some c, as) := by
  cases s with
  | nil => simp [reMatches]
  | cons a as =>
      by_cases h : a = c
      · subst h; simp [reMatches]
      · have hb : (a == c) = false := by simp [h]
        simp [reMatches, hb, h]

theorem mem_reMatches_cls {p : Char → Bool} {prev : Option Char} {s : List Char}
    {t : List Char × Option Char × List Char} :
    t ∈ reMatches (RE.cls p) prev s ↔
      ∃ a as, s = a :: as ∧ p a = true ∧ t = ([a], some a, as) := by
  cases s with
  | nil => simp [reMatches]
  | cons a as =>
      by_cases h : p a = true
      · simp only [reMatches, h, if_true, List.mem_singleton]
        constructor
        · rintro rfl; exact ⟨a, as, rfl, h, rfl⟩
        · rintro ⟨a', as', heq, hp', rfl⟩
          injection heq with h1 h2
          rw [h1, h2]
      · have hb : p a = false := by
          cases hpa : p a
          · rfl
          · exact absurd hpa h
        simp [reMatches, hb]

theorem mem_reMatches_seq {a b : RE} {prev : Option Char} {s : List Char}
    {t : List Char × Option Char × List Char} :
    t ∈ reMatches (RE.seq a b) prev s ↔
      ∃ u ∈ reMatches a prev s, ∃ v ∈ reMatches b u.2.1 u.2.2,
        t = (u.1 ++ v.1, v.2.1, v.2.2) := by
  show t ∈ (reMatches a prev s).flatMap _ ↔ _
  rw [List.mem_flatMap]
  constructor
  · rintro ⟨u, hu, hmem⟩
    rcases List.mem_map.mp hmem with ⟨v, hv, rfl⟩
    exact ⟨u, hu, v, hv, rfl⟩
  · rintro ⟨u, hu, v, hv, rfl⟩
    exact ⟨u, hu, List.mem_map.mpr ⟨v, hv, rfl⟩⟩

theorem adrPattern_match_shape {prev : Option Char} {s : List Char}
    {t : List Char × Option Char × List Char}
    (ht : t ∈ reMatches adrPatternRE prev s) :
    ∃ d1 d2 d3, t.1 = ['A', 'D', 'R', '-', d1, d2, d3] ∧
      isDigitCh d1 = true ∧ isDigitCh d2 = true ∧ isDigitCh d3 = true := by
  rw [adrPatternRE, mem_reMatches_seq] at ht
  obtain ⟨u1, hu1, v1, hv1, rfl⟩ := ht
  rw [mem_reMatches_chr] at hu1
  obtain ⟨s1, hs1, rfl⟩ := hu1
  rw [mem_reMatches_seq] at hv1
  obtain ⟨u2, hu2, v2, hv2, rfl⟩ := hv1
  rw [mem_reMatches_chr] at hu2
  obtain ⟨s2, hs2, rfl⟩ := hu2
  rw [mem_reMatches_seq] at hv2
  obtain ⟨u3, hu3, v3, hv3, rfl⟩ := hv2
  rw [mem_reMatches_chr] at hu3
  obtain ⟨s3, hs3, rfl⟩ := hu3
  rw [mem_reMatches_seq] at hv3
  obtain ⟨u4, hu4, v4, hv4, rfl⟩ := hv3
  rw [mem_reMatches_chr] at hu4
  obtain ⟨s4, hs4, rfl⟩ := hu4
  rw [mem_reMatches_seq] at hv4
  obtain ⟨u5, hu5, v5, hv5, rfl⟩ := hv4
  rw [mem_reMatches_cls] at hu5
  obtain ⟨d1, s5, hs5, hd1, rfl⟩ := hu5
  rw [mem_reMatches_seq] at hv5
  obtain ⟨u6, hu6, v6, hv6, rfl⟩ := hv5
  rw [mem_reMatches_cls] at hu6
  obtain ⟨d2, s6, hs6, hd2, rfl⟩ := hu6
  rw [mem_reMatches_cls] at hv6
  obtain ⟨d3, s7, hs7, hd3, rfl⟩ := hv6
  exact ⟨d1, d2, d3, rfl, hd1, hd2, hd3⟩

theorem findallAux_succ (re : RE) (fuel : Nat) (prev : Option Char) (s : List Char) :
    findallAux re (Nat.succ fuel) prev s =
      match reMatches re prev s with
      | t :: _ =>
          if t.1.isEmpty then
            match s with
            | [] => []
            | c :: cs => findallAux re fuel (some c) cs
          else
            t.1 :: findallAux re fuel t.2.1 t.2.2
      | [] =>
          match s with
          | [] => []
          | c :: cs => findallAux re fuel (some c) cs := rfl

theorem findallAux_shape {re : RE} :
    ∀ (fuel : Nat) (prev : Option Char) (s : List Char) (m : List Char),
      m ∈ findallAux re fuel prev s →
      ∃ prev' s' t, t ∈ reMatches re prev' s' ∧ m = t.1 := by
  intro fuel
  induction fuel with
  | zero => intro prev s m h; simp [findallAux] at h
  | succ fuel ih =>
      intro prev s m h
      rw [findallAux_succ] at h
      rcases hr : reMatches re prev s with _ | ⟨t, rest⟩
      · rw [hr] at h
        cases s with
        | nil => simp at h
        | cons c cs => exact ih (some c) cs m h
      · rw [hr] at h
        dsimp only at h
        by_cases he : t.1.isEmpty
        · rw [if_pos he] at h
          cases s with
          | nil => simp at h
          | cons c cs => exact ih (some c) cs m h
        · rw [if_neg he] at h
          rcases List.mem_cons.mp h with rfl | h'
          · exact ⟨prev, s, t, by rw [hr]; exact List.mem_cons_self t rest, rfl⟩
          · exact ih t.2.1 t.2.2 m h'

/-- C5 counterexample: `spec_parser.py` performs no placeholder-token
stripping — it only ignores whole template files — and its `REF_PATTERN`
matches the literal unassigned-ADR template token.  A governed document
whose body contains `ADR-XXX` therefore gets `ADR-XXX` into its
extracted reference set, and from there into the graph (it becomes a key
of the backward map), refuting "no placeholder token ever appears in the
extracted identifier set or in the graph". -/
theorem c5_placeholder_counterexample :
    "ADR-XXX" ∈ (buildItem "REQ-F-001" "Example" "02-requirements/example.md"
        "Refs: ADR-XXX here").references ∧
    "ADR-XXX" ∈ backwardKeys
      [buildItem "REQ-F-001" "Example" "02-requirements/example.md"
        "Refs: ADR-XXX here"] := by
  refine ⟨by decide, by decide⟩

theorem not_mem_matrixAdrScan (text : String) :
    "ADR-XXX" ∉ matrixAdrScan text := by
  intro hmem
  unfold matrixAdrScan findallRE at hmem
  rcases List.mem_map.mp hmem with ⟨cs, hcs, hmk⟩
  have hdata : cs = "ADR-XXX".data := by
    have h := congrArg String.data hmk
    simpa using h
  rcases findallAux_shape _ _ _ _ hcs with ⟨prev', s', t, ht, rfl⟩
  rcases adrPattern_match_shape ht with ⟨d1, d2, d3, hshape, hd1, -, -⟩
  rw [hshape, show "ADR-XXX".data = ['A', 'D', 'R', '-', 'X', 'X', 'X'] from rfl]
    at hdata
  have hx : d1 = 'X' := by
    simpa using congrArg (fun l => l.get? 4) hdata
  rw [hx] at hd1
  exact absurd hd1 (by decide)

/-- C5 as amended: only `generate-traceability-matrix.py` pre-strips the
flagged placeholder tokens (`ADR-XXX`, `REQ-F-000`/`REQ-NF-000`) before
pattern matching, and in its scan the extracted `'adr'` identifier set
never contains the placeholder `ADR-XXX` (every `ADR-\d{3}` match ends
in three digits); the spec-index parser does not strip placeholder
tokens, so they can reach its reference graph (see the counterexample). -/
theorem c5_matrix_scan_no_placeholder (text : String) :
    (matrixAdrScan text).contains "ADR-XXX" = false := by
  cases hc : (matrixAdrScan text).contains "ADR-XXX"
  · rfl
  · exfalso
    exact not_mem_matrixAdrScan text (by simpa using hc)

/-! ### The symmetric requirement-link rule (C1) -/

theorem isPrefixOf_iff : ∀ (p l : List Char), p.isPrefixOf l = true ↔ ∃ t, l = p ++ t := by
  intro p
  induction p with
  | nil => intro l; simp [List.isPrefixOf]
  | cons a as ih =>
      intro l
      cases l with
      | nil => simp [List.isPrefixOf]
      | cons b bs =>
          simp only [List.isPrefixOf, Bool.and_eq_true, beq_iff_eq, ih,
            List.cons_append]
          constructor
          · rintro ⟨rfl, t, rfl⟩; exact ⟨t, rfl⟩
          · rintro ⟨t, ht⟩
            injection ht with h1 h2
            exact ⟨h1.symm, t, h2⟩

theorem pyStartsWith_head {s pre : String} {c : Char} {cs : List Char}
    (hpre : pre.data = c :: cs) (h : pyStartsWith s pre = true) :
    ∃ t, s.data = c :: t := by
  rcases (isPrefixOf_iff pre.data s.data).mp h with ⟨t, ht⟩
  rw [hpre] at ht
  exact ⟨cs ++ t, by simpa using ht⟩

theorem startsWith_excl {s p q : String} {cp cq : Char} {lp lq : List Char}
    (hp : p.data = cp :: lp) (hq : q.data = cq :: lq) (hne : cp ≠ cq)
    (h : pyStartsWith s p = true) : pyStartsWith s q = false := by
  cases hc : pyStartsWith s q
  · rfl
  · exfalso
    rcases pyStartsWith_head hp h with ⟨t1, ht1⟩
    rcases pyStartsWith_head hq hc with ⟨t2, ht2⟩
    rw [ht1] at ht2
    injection ht2 with h1 _
    exact hne h1

theorem startsQA_not_ADR {s : String} (h : pyStartsWith s "QA" = true) :
    pyStartsWith s "ADR" = false :=
  startsWith_excl (p := "QA") (q := "ADR") rfl rfl (by decide) h

theorem startsTEST_not_ADR {s : String} (h : pyStartsWith s "TEST" = true) :
    pyStartsWith s "ADR" = false :=
  startsWith_excl (p := "TEST") (q := "ADR") rfl rfl (by decide) h

theorem startsTEST_not_QA {s : String} (h : pyStartsWith s "TEST" = true) :
    pyStartsWith s "QA" = false :=
  startsWith_excl (p := "TEST") (q := "QA") rfl rfl (by decide) h

theorem reverseLinks_pred_iff (tgt rid : String)
    (hT : tgt = "ADR" ∨ tgt = "QA" ∨ tgt = "TEST")
    (hrid : pyStartsWith rid "REQ" = true) (itm : Item) :
    (inReverseTargets itm.id && itm.references.contains rid &&
        pyStartsWith rid "REQ" && (reverseBranch itm.id == tgt)) = true ↔
      (pyStartsWith itm.id tgt = true ∧ rid ∈ itm.references) := by
  constructor
  · intro h
    rw [Bool.and_eq_true, Bool.and_eq_true, Bool.and_eq_true] at h
    obtain ⟨⟨⟨hgate, hcont⟩, -⟩, hbr⟩ := h
    have hmem : rid ∈ itm.references := by simpa using hcont
    have hbr' : reverseBranch itm.id = tgt := by simpa using hbr
    unfold reverseBranch at hbr'
    rcases hT with rfl | rfl | rfl
    · by_cases hA : pyStartsWith itm.id "ADR" = true
      · exact ⟨hA, hmem⟩
      · rw [if_neg hA] at hbr'
        by_cases hQ : pyStartsWith itm.id "QA" = true
        · rw [if_pos hQ] at hbr'
          exact absurd hbr' (by decide)
        · rw [if_neg hQ] at hbr'
          exact absurd hbr' (by decide)
    · by_cases hA : pyStartsWith itm.id "ADR" = true
      · rw [if_pos hA] at hbr'
        exact absurd hbr' (by decide)
      · rw [if_neg hA] at hbr'
        by_cases hQ : pyStartsWith itm.id "QA" = true
        · exact ⟨hQ, hmem⟩
        · rw [if_neg hQ] at hbr'
          exact absurd hbr' (by decide)
    · by_cases hA : pyStartsWith itm.id "ADR" = true
      · rw [if_pos hA] at hbr'
        exact absurd hbr' (by decide)
      · by_cases hQ : pyStartsWith itm.id "QA" = true
        · rw [if_neg hA, if_pos hQ] at hbr'
          exact absurd hbr' (by decide)
        · have hgate' : (pyStartsWith itm.id "ADR" = true ∨
              pyStartsWith itm.id "QA" = true) ∨
              pyStartsWith itm.id "TEST" = true := by
            simpa [inReverseTargets, Bool.or_eq_true] using hgate
          rcases hgate' with (h | h) | h
          · exact absurd h hA
          · exact absurd h hQ
          · exact ⟨h, hmem⟩
  · rintro ⟨hstart, hmem⟩
    have hcont : itm.references.contains rid = true := by simpa using hmem
    rcases hT with rfl | rfl | rfl
    · have hbr : reverseBranch itm.id = "ADR" := by simp [reverseBranch, hstart]
      simp [inReverseTargets, hstart, hrid, hbr, hmem]
    · have hA := startsQA_not_ADR hstart
      have hbr : reverseBranch itm.id = "QA" := by simp [reverseBranch, hA, hstart]
      simp [inReverseTargets, hstart, hrid, hbr, hmem]
    · have hA := startsTEST_not_ADR hstart
      have hQ := startsTEST_not_QA hstart
      have hbr : reverseBranch itm.id = "TEST" := by simp [reverseBranch, hA, hQ]
      simp [inReverseTargets, hstart, hrid, hbr, hmem]

theorem reverseLinks_ne_nil_iff (items : List Item) (tgt rid : String)
    (hT : tgt = "ADR" ∨ tgt = "QA" ∨ tgt = "TEST")
    (hrid : pyStartsWith rid "REQ" = true) :
    reverseLinks items tgt rid ≠ [] ↔
      ∃ itm ∈ items, pyStartsWith itm.id tgt = true ∧ rid ∈ itm.references := by
  unfold reverseLinks
  constructor
  · intro h
    have hf : items.filter (fun itm =>
        inReverseTargets itm.id && itm.references.contains rid &&
          pyStartsWith rid "REQ" && (reverseBranch itm.id == tgt)) ≠ [] :=
      fun hc => h (by rw [hc]; rfl)
    rcases List.exists_mem_of_ne_nil _ hf with ⟨itm, hmem⟩
    have hm := List.mem_filter.mp hmem
    exact ⟨itm, hm.1, (reverseLinks_pred_iff tgt rid hT hrid itm).mp hm.2⟩
  · rintro ⟨itm, hitm, hpred⟩
    exact List.ne_nil_of_mem (List.mem_map_of_mem _
      (List.mem_filter.mpr ⟨hitm, (reverseLinks_pred_iff tgt rid hT hrid itm).mpr hpred⟩))

/-- C1: for a requirement id `rid` and target category
`tgt ∈ {ADR, QA, TEST}`, `req_link_stat` counts `rid` as linked to `tgt`
if and only if either `rid`'s forward-reference list contains an
identifier starting with `tgt`, or some item whose identifier starts
with `tgt` lists `rid` in its own reference list.  In particular a
requirement whose document never mentions the downstream item still
counts as linked when the downstream item references it (see witness). -/
theorem c1_symmetric_link_rule (items : List Item) (tgt rid : String)
    (hT : tgt = "ADR" ∨ tgt = "QA" ∨ tgt = "TEST")
    (hrid : pyStartsWith rid "REQ" = true) :
    reqLinkedTo items tgt rid = true ↔
      ((∃ r ∈ forwardGet items rid, pyStartsWith r tgt = true) ∨
       (∃ itm ∈ items, pyStartsWith itm.id tgt = true ∧ rid ∈ itm.references)) := by
  show ((forwardGet items rid).any (fun r => pyStartsWith r tgt) ||
      !(reverseLinks items tgt rid).isEmpty) = true ↔ _
  rw [Bool.or_eq_true]
  apply or_congr
  · exact List.any_eq_true
  · constructor
    · intro h
      refine (reverseLinks_ne_nil_iff items tgt rid hT hrid).mp ?_
      intro hc
      rw [hc] at h
      simp at h
    · intro h
      have hne := (reverseLinks_ne_nil_iff items tgt rid hT hrid).mpr h
      cases hl : reverseLinks items tgt rid with
      | nil => exact absurd hl hne
      | cons a as => rfl

/-- Witness for C1, instantiating the asymmetric-declaration scenario:
the requirement's own document lists no references at all, only the ADR
references the requirement, and the symmetric rule still counts the
requirement as linked. -/
theorem c1_symmetric_link_rule_witness :
    reqLinkedTo
      [⟨"REQ-F-001", "t", "a.md", []⟩, ⟨"ADR-001", "d", "b.md", ["REQ-F-001"]⟩]
      "ADR" "REQ-F-001" = true :=
  (c1_symmetric_link_rule
      [⟨"REQ-F-001", "t", "a.md", []⟩, ⟨"ADR-001", "d", "b.md", ["REQ-F-001"]⟩]
      "ADR" "REQ-F-001" (Or.inl rfl) (by decide)).mpr
    (Or.inr ⟨⟨"ADR-001", "d", "b.md", ["REQ-F-001"]⟩, by decide, by decide, by decide⟩)

end LibMediaTrace
